import Mathlib

/-!
Verification development for the pi_coin Soroban contracts:
a shallow embedding in Lean 4 of the governance contract
(src/pi_coin/governance/pi_coin_governance.rs), the utility contract
(src/pi_coin/src/util.rs), and the ledger core (whose implementation file
is absent from the repository snapshot; it is modelled from the
specification, see the doc comments below), together with theorems
settling the specification's claims.

Modelling conventions: Soroban `Address` values are opaque identifiers,
modelled as `Nat`; `Symbol` titles as `String`; `Bytes` as `List Nat`
(byte values); `u32` as `Nat`; `i128` as `Int` (no arithmetic in the
claims approaches the i128 bounds); `BytesN<32>` digests as an opaque
`Nat` (never inspected by the embedded logic); Soroban `Map` as an
association list with set-replaces semantics; Rust `Result` as `Except`.
Host facilities with no effect on contract state (logging, event
emission, signatures) are dropped.
-/

/-- Issuance source enum. Its defining Rust file (the main contract) is
absent from the snapshot; the spec's §3 fixes it as the closed enum
\x7bMining, Rewards, P2P, Invalid\x7d used by util.rs and the tests. -/
inductive PiCoinSource where
  | Mining
  | Rewards
  | P2P
  | Invalid
deriving DecidableEq, Repr

/- Association-list model of a Soroban Map with Nat keys:
`mapGet` is `Map::get`, `mapSet` is `Map::set` (replacing any previous
binding for the key), `mapLen` is `Map::len` (count of distinct keys,
valid because `mapSet` keeps keys without duplicates). -/

def mapGet {α : Type} (m : List (Nat × α)) (k : Nat) : Option α :=
  match m with
  | [] => none
  | (a, b) :: t => if a = k then some b else mapGet t k

def mapRemove {α : Type} (m : List (Nat × α)) (k : Nat) : List (Nat × α) :=
  match m with
  | [] => []
  | (a, b) :: t => if a = k then mapRemove t k else (a, b) :: mapRemove t k

def mapSet {α : Type} (m : List (Nat × α)) (k : Nat) (v : α) : List (Nat × α) :=
  (k, v) :: mapRemove m k

def mapLen {α : Type} (m : List (Nat × α)) : Nat := m.length

def mapKeys {α : Type} (m : List (Nat × α)) : List Nat := m.map Prod.fst

theorem mapGet_mapSet_same {α : Type} (m : List (Nat × α)) (k : Nat) (v : α) :
    mapGet (mapSet m k v) k = some v := by
  simp [mapGet, mapSet]

theorem mapGet_mapRemove_ne {α : Type} (m : List (Nat × α)) (j k : Nat)
    (hjk : j ≠ k) : mapGet (mapRemove m k) j = mapGet m j := by
  induction m with
  | nil => rfl
  | cons hd t ih =>
      obtain ⟨a, b⟩ := hd
      by_cases hak : a = k
      · have haj : ¬ a = j := fun h => hjk (h ▸ hak)
        rw [mapRemove, if_pos hak, ih, mapGet, if_neg haj]
      · rw [mapRemove, if_neg hak, mapGet, mapGet]
        by_cases haj : a = j
        · rw [if_pos haj, if_pos haj]
        · rw [if_neg haj, if_neg haj, ih]

theorem mapGet_mapSet_ne {α : Type} (m : List (Nat × α)) (j k : Nat) (v : α)
    (hjk : j ≠ k) : mapGet (mapSet m k v) j = mapGet m j := by
  rw [mapSet, mapGet, if_neg (fun h => hjk h.symm), mapGet_mapRemove_ne m j k hjk]

theorem mapGet_mapRemove_same {α : Type} (m : List (Nat × α)) (k : Nat) :
    mapGet (mapRemove m k) k = none := by
  induction m with
  | nil => rfl
  | cons hd t ih =>
      obtain ⟨a, b⟩ := hd
      by_cases hak : a = k
      · rw [mapRemove, if_pos hak, ih]
      · rw [mapRemove, if_neg hak, mapGet, if_neg hak, ih]

theorem mem_mapKeys_iff {α : Type} (m : List (Nat × α)) (k : Nat) :
    k ∈ mapKeys m ↔ (mapGet m k).isSome := by
  induction m with
  | nil => simp [mapKeys, mapGet]
  | cons hd t ih =>
      obtain ⟨a, b⟩ := hd
      by_cases hak : a = k
      · subst hak
        simp [mapKeys, mapGet]
      · simp [mapKeys, mapGet, hak, Ne.symm hak] at ih ⊢
        exact ih

theorem mapKeys_mapRemove_sublist {α : Type} (m : List (Nat × α)) (k : Nat) :
    List.Sublist (mapKeys (mapRemove m k)) (mapKeys m) := by
  induction m with
  | nil => exact List.Sublist.refl _
  | cons hd t ih =>
      obtain ⟨a, b⟩ := hd
      by_cases hak : a = k
      · rw [mapRemove, if_pos hak]
        exact List.Sublist.cons a ih
      · rw [mapRemove, if_neg hak]
        exact List.Sublist.cons₂ a ih

theorem nodup_mapKeys_mapSet {α : Type} (m : List (Nat × α)) (k : Nat) (v : α)
    (h : (mapKeys m).Nodup) : (mapKeys (mapSet m k v)).Nodup := by
  rw [mapSet]
  show ((k, v).1 :: mapKeys (mapRemove m k)).Nodup
  refine List.nodup_cons.mpr ⟨?_, (mapKeys_mapRemove_sublist m k).nodup h⟩
  intro hk
  rw [mem_mapKeys_iff, mapGet_mapRemove_same] at hk
  simp at hk

/-! Governance contract embedding, from
src/pi_coin/governance/pi_coin_governance.rs. -/

/-- GovernanceError from pi_coin_governance.rs (lines 32-38).  Note the
closed variant set: Unauthorized, ProposalNotFound, InsufficientStake,
QuantumThresholdNotMet — there is no AlreadyFinalized variant. -/
inductive GovernanceError where
  | Unauthorized
  | ProposalNotFound
  | InsufficientStake
  | QuantumThresholdNotMet
deriving DecidableEq, Repr

/-- Proposal status values. The Rust field is a `Symbol`; the contract
only ever stores the symbols "active", "passed" and "failed", embedded
here as a closed enum. -/
inductive ProposalStatus where
  | active
  | passed
  | failed
deriving DecidableEq, Repr

/-- Proposal struct from pi_coin_governance.rs (lines 14-23). -/
structure Proposal where
  title : String
  description : List Nat
  votes_for : Nat
  votes_against : Nat
  status : ProposalStatus
  ai_score : Int
deriving DecidableEq, Repr

/-- VoterData struct from pi_coin_governance.rs (lines 25-30). -/
structure VoterData where
  stake : Int
  vote_history : List Nat
deriving DecidableEq, Repr

/-- GovernanceData struct from pi_coin_governance.rs (lines 4-12).
The admin address and the sha256 model hash are opaque to all contract
logic and are carried as plain numbers. -/
structure GovernanceData where
  admin : Nat
  proposals : List (Nat × Proposal)
  voters : List (Nat × VoterData)
  ai_model_hash : Nat
  quantum_threshold : Nat
deriving DecidableEq, Repr

/-- Helper ai_score_proposal (pi_coin_governance.rs lines 147-150):
`(description.len() as i128 * 10) % 100`. The dividend is non-negative,
so Rust's truncating `%` agrees with Lean's `Int.emod` here. -/
def ai_score_proposal (description : List Nat) : Int :=
  ((description.length : Int) * 10) % 100

/-- create_proposal (pi_coin_governance.rs lines 61-80). Auth, storage
round-trip and logging dropped; the Ok payload is the new proposal id,
paired with the updated state. -/
def create_proposal (data : GovernanceData) (title : String)
    (description : List Nat) : Nat × GovernanceData :=
  let proposal_id := mapLen data.proposals + 1
  let ai_score := ai_score_proposal description
  let proposal : Proposal :=
    { title := title
      description := description
      votes_for := 0
      votes_against := 0
      status := ProposalStatus.active
      ai_score := ai_score }
  (proposal_id,
   { data with proposals := mapSet data.proposals proposal_id proposal })

/-- Default VoterData used by `unwrap_or` in vote and stake_tokens. -/
def emptyVoter : VoterData := { stake := 0, vote_history := [] }

/-- vote (pi_coin_governance.rs lines 83-110): stake gate first (with a
fresh zero-stake record for unknown voters), then proposal lookup, then
tally update and history append. No status check on the proposal. -/
def vote (data : GovernanceData) (voter : Nat) (proposal_id : Nat)
    (approve : Bool) : Except GovernanceError GovernanceData :=
  let voter_data := (mapGet data.voters voter).getD emptyVoter
  if voter_data.stake < 100000 then
    Except.error GovernanceError.InsufficientStake
  else
    match mapGet data.proposals proposal_id with
    | none => Except.error GovernanceError.ProposalNotFound
    | some proposal =>
        let proposal :=
          if approve then { proposal with votes_for := proposal.votes_for + 1 }
          else { proposal with votes_against := proposal.votes_against + 1 }
        let voter_data :=
          { voter_data with vote_history := voter_data.vote_history ++ [proposal_id] }
        Except.ok
          { data with
              voters := mapSet data.voters voter voter_data
              proposals := mapSet data.proposals proposal_id proposal }

/-- finalize_proposal (pi_coin_governance.rs lines 113-129): looks the
proposal up, then unconditionally recomputes its status from the vote
tally and AI score. There is no check that the proposal is still
active. -/
def finalize_proposal (data : GovernanceData) (proposal_id : Nat) :
    Except GovernanceError GovernanceData :=
  match mapGet data.proposals proposal_id with
  | none => Except.error GovernanceError.ProposalNotFound
  | some proposal =>
      let proposal :=
        if data.quantum_threshold ≤ proposal.votes_for ∧ 50 < proposal.ai_score then
          { proposal with status := ProposalStatus.passed }
        else
          { proposal with status := ProposalStatus.failed }
      Except.ok { data with proposals := mapSet data.proposals proposal_id proposal }

/-- stake_tokens (pi_coin_governance.rs lines 132-144): adds `amount` to
the staker's stake with no validation of the amount. -/
def stake_tokens (data : GovernanceData) (staker : Nat) (amount : Int) :
    Except GovernanceError GovernanceData :=
  let voter_data := (mapGet data.voters staker).getD emptyVoter
  let voter_data := { voter_data with stake := voter_data.stake + amount }
  Except.ok { data with voters := mapSet data.voters staker voter_data }

/-! Utility contract embedding, from src/pi_coin/src/util.rs. -/

/-- calculate_pi_peg (util.rs lines 11-23): rejects the Invalid source
with Err(()), otherwise returns `base_value + 3_141_590_000 / 1000`.
The function reads no ledger time and no storage. -/
def calculate_pi_peg (base_value : Int) (source : PiCoinSource) :
    Except Unit Int :=
  if source = PiCoinSource.Invalid then
    Except.error ()
  else
    let pi_approx : Int := 3141590000
    Except.ok (base_value + pi_approx / 1000)

/-- batch_verify_sources (util.rs lines 66-81): Err(()) on mismatched
lengths, otherwise one Bool per index `i` in `0..holders.len()`, true
iff `sources.get(i)` is not Invalid. The `unwrap` on `sources.get(i)`
cannot fail because the lengths agree; it is embedded as `getD` with an
arbitrary default. The function only reads its arguments. -/
def batch_verify_sources (holders : List Nat) (sources : List PiCoinSource) :
    Except Unit (List Bool) :=
  if holders.length ≠ sources.length then
    Except.error ()
  else
    Except.ok ((List.range holders.length).map
      (fun i => sources.getD i PiCoinSource.Invalid ≠ PiCoinSource.Invalid))

/-! Ledger core model. The main contract file (PiCoinContract with
initialize, mint, transfer, verify_peg) is not present in the repository
snapshot — only its tests (src/pi_coin/src/test.rs) and callers
(src/scripts/deploy.rs) are — so the ledger is modelled from the
specification. -/

/-- Modelled from the spec: the LedgerError taxonomy of §7 for the
missing LedgerCore implementation (only the variants LedgerCore can
return). -/
inductive LedgerError where
  | InvalidSource
  | InsufficientCollateral
  | InsufficientBalance
deriving DecidableEq, Repr

/-- Modelled from the spec: LedgerState of §3 for the missing LedgerCore
implementation — total supply, per-account balances, locked collateral,
plus the provenance records of §3 (owned by ProvenanceRegistry, written
only by mint). The fixed peg_base_value plays no part in the claims and
is omitted. -/
structure LedgerState where
  total_supply : Int
  balances : List (Nat × Int)
  collateral_locked : Int
  provenance : List (Nat × PiCoinSource)
deriving DecidableEq, Repr

/-- Balance lookup: absent accounts hold zero. -/
def balOf (st : LedgerState) (a : Nat) : Int := (mapGet st.balances a).getD 0

/-- Modelled from the spec: ledger initialization for the missing
LedgerCore implementation — §8 scenario 1 initializes with a given
locked collateral, an empty balance map and zero supply (after the
first mint of 1,000,000 the total supply is 1,000,000). -/
def initLedger (collateral : Int) : LedgerState :=
  { total_supply := 0
    balances := []
    collateral_locked := collateral
    provenance := [] }

/-- Modelled from the spec: mint of §4.1 for the missing LedgerCore
implementation. Rejects `Invalid` sources with InvalidSource; rejects
mints whose post-mint supply would exceed the locked collateral with
InsufficientCollateral; otherwise credits `to`, grows the supply and
records the provenance source if `to` has none yet (set-if-absent,
§4.2). -/
def mint (st : LedgerState) (rcpt : Nat) (amount : Int) (source : PiCoinSource) :
    Except LedgerError LedgerState :=
  if source = PiCoinSource.Invalid then
    Except.error LedgerError.InvalidSource
  else if st.collateral_locked < st.total_supply + amount then
    Except.error LedgerError.InsufficientCollateral
  else
    Except.ok
      { st with
          balances := mapSet st.balances rcpt (balOf st rcpt + amount)
          total_supply := st.total_supply + amount
          provenance :=
            match mapGet st.provenance rcpt with
            | some _ => st.provenance
            | none => mapSet st.provenance rcpt source }

/-- Modelled from the spec: transfer of §4.1 for the missing LedgerCore
implementation. Fails InvalidSource when the sender has no provenance
record or an Invalid one; fails InsufficientBalance when funds are
short; otherwise debits the sender and credits the receiver atomically
(the credit reads the post-debit map, so a self-transfer is a no-op). -/
def transfer (st : LedgerState) (src dst : Nat) (amount : Int) :
    Except LedgerError LedgerState :=
  match mapGet st.provenance src with
  | none => Except.error LedgerError.InvalidSource
  | some s =>
      if s = PiCoinSource.Invalid then
        Except.error LedgerError.InvalidSource
      else if balOf st src < amount then
        Except.error LedgerError.InsufficientBalance
      else
        let debited := mapSet st.balances src (balOf st src - amount)
        let credited := mapSet debited dst ((mapGet debited dst).getD 0 + amount)
        Except.ok { st with balances := credited }

/-- Ledger commands, for stating properties over operation sequences. -/
inductive LedgerOp where
  | mint (rcpt : Nat) (amount : Int) (source : PiCoinSource)
  | transfer (src dst : Nat) (amount : Int)
deriving DecidableEq, Repr

/-- Runs one command; a failed command leaves the state untouched (§5:
all failures are pre-commit validation failures, never partial
writes). -/
def applyOp (st : LedgerState) (op : LedgerOp) : LedgerState :=
  match op with
  | LedgerOp.mint rcpt amount source =>
      match mint st rcpt amount source with
      | Except.ok st2 => st2
      | Except.error _ => st
  | LedgerOp.transfer src dst amount =>
      match transfer st src dst amount with
      | Except.ok st2 => st2
      | Except.error _ => st

/-- Runs a command sequence from a starting state. -/
def runOps (st : LedgerState) (ops : List LedgerOp) : LedgerState :=
  List.foldl applyOp st ops

/-- Sum of all recorded balances. -/
def sumBal (m : List (Nat × Int)) : Int := (m.map Prod.snd).sum

/-- Conservation invariant of §3/§8: the balance map has one entry per
account, the balances sum to the total supply, and the supply does not
exceed the locked collateral. -/
def LedgerInv (st : LedgerState) : Prop :=
  (mapKeys st.balances).Nodup ∧
  sumBal st.balances = st.total_supply ∧
  st.total_supply ≤ st.collateral_locked

instance (st : LedgerState) : Decidable (LedgerInv st) := by
  unfold LedgerInv
  infer_instance

theorem mapGet_eq_none_of_not_mem {α : Type} (m : List (Nat × α)) (k : Nat)
    (h : k ∉ mapKeys m) : mapGet m k = none := by
  have h2 : ¬ (mapGet m k).isSome := fun hs => h ((mem_mapKeys_iff m k).mpr hs)
  exact Option.not_isSome_iff_eq_none.mp h2

theorem sumBal_cons (a : Nat) (b : Int) (t : List (Nat × Int)) :
    sumBal ((a, b) :: t) = b + sumBal t := by
  simp [sumBal]

theorem sumBal_mapRemove (m : List (Nat × Int)) (k : Nat)
    (h : (mapKeys m).Nodup) :
    sumBal (mapRemove m k) = sumBal m - (mapGet m k).getD 0 := by
  induction m with
  | nil => simp [mapRemove, mapGet, sumBal]
  | cons hd t ih =>
      obtain ⟨a, b⟩ := hd
      have hpair : mapKeys ((a, b) :: t) = a :: mapKeys t := rfl
      rw [hpair, List.nodup_cons] at h
      obtain ⟨hmem, hnd⟩ := h
      by_cases hak : a = k
      · subst hak
        rw [mapRemove, if_pos rfl, ih hnd, mapGet, if_pos rfl,
          mapGet_eq_none_of_not_mem t a hmem, sumBal_cons]
        simp
      · rw [mapRemove, if_neg hak, sumBal_cons, ih hnd, mapGet, if_neg hak,
          sumBal_cons]
        ring

theorem sumBal_mapSet (m : List (Nat × Int)) (k : Nat) (v : Int)
    (h : (mapKeys m).Nodup) :
    sumBal (mapSet m k v) = sumBal m - (mapGet m k).getD 0 + v := by
  rw [mapSet, sumBal_cons, sumBal_mapRemove m k h]
  ring

/-- Every ledger command preserves the conservation invariant; failed
commands leave the state untouched. -/
theorem ledgerInv_applyOp (st : LedgerState) (op : LedgerOp)
    (h : LedgerInv st) : LedgerInv (applyOp st op) := by
  obtain ⟨hnd, hsum, hcol⟩ := h
  cases op with
  | mint rcpt amount source =>
      by_cases h1 : source = PiCoinSource.Invalid
      · simp [applyOp, mint, h1]
        exact ⟨hnd, hsum, hcol⟩
      · by_cases h2 : st.collateral_locked < st.total_supply + amount
        · simp [applyOp, mint, h1, h2]
          exact ⟨hnd, hsum, hcol⟩
        · simp only [applyOp, mint, if_neg h1, if_neg h2]
          refine ⟨nodup_mapKeys_mapSet _ _ _ hnd, ?_, ?_⟩
          · show sumBal (mapSet st.balances rcpt (balOf st rcpt + amount)) =
              st.total_supply + amount
            rw [sumBal_mapSet _ _ _ hnd]
            unfold balOf
            omega
          · show st.total_supply + amount ≤ st.collateral_locked
            omega
  | transfer src dst amount =>
      cases hp : mapGet st.provenance src with
      | none =>
          simp [applyOp, transfer, hp]
          exact ⟨hnd, hsum, hcol⟩
      | some s =>
          by_cases h1 : s = PiCoinSource.Invalid
          · simp [applyOp, transfer, hp, h1]
            exact ⟨hnd, hsum, hcol⟩
          · by_cases h2 : balOf st src < amount
            · simp [applyOp, transfer, hp, h1, h2]
              exact ⟨hnd, hsum, hcol⟩
            · simp only [applyOp, transfer, hp, if_neg h1, if_neg h2]
              have hnd2 : (mapKeys (mapSet st.balances src (balOf st src - amount))).Nodup :=
                nodup_mapKeys_mapSet _ _ _ hnd
              refine ⟨nodup_mapKeys_mapSet _ _ _ hnd2, ?_, hcol⟩
              show sumBal (mapSet (mapSet st.balances src (balOf st src - amount)) dst
                  ((mapGet (mapSet st.balances src (balOf st src - amount)) dst).getD 0 + amount)) =
                st.total_supply
              rw [sumBal_mapSet _ _ _ hnd2, sumBal_mapSet _ _ _ hnd]
              unfold balOf
              omega

theorem ledgerInv_runOps (st : LedgerState) (ops : List LedgerOp)
    (h : LedgerInv st) : LedgerInv (runOps st ops) := by
  induction ops generalizing st with
  | nil => exact h
  | cons op rest ih => exact ih (applyOp st op) (ledgerInv_applyOp st op h)

theorem ledgerInv_initLedger (collateral : Int) (h : 0 ≤ collateral) :
    LedgerInv (initLedger collateral) := by
  refine ⟨List.nodup_nil, rfl, h⟩

/-! Claim theorems. -/

/-- C2: for every existing proposal, finalize_proposal sets the status
to Passed iff votes_for reaches the quantum threshold and the AI score
strictly exceeds 50, and to Failed otherwise; in particular a proposal
short of quorum always ends Failed, whatever its score. -/
theorem finalize_proposal_pass_fail_characterization (g : GovernanceData)
    (pid : Nat) (p : Proposal) (hp : mapGet g.proposals pid = some p) :
    ∃ g2 p2, finalize_proposal g pid = Except.ok g2 ∧
      mapGet g2.proposals pid = some p2 ∧
      (p2.status = ProposalStatus.passed ↔
        (g.quantum_threshold ≤ p.votes_for ∧ 50 < p.ai_score)) ∧
      (p2.status = ProposalStatus.failed ↔
        ¬ (g.quantum_threshold ≤ p.votes_for ∧ 50 < p.ai_score)) ∧
      (p.votes_for < g.quantum_threshold → p2.status = ProposalStatus.failed) := by
  by_cases hc : g.quantum_threshold ≤ p.votes_for ∧ 50 < p.ai_score
  · have hfin : finalize_proposal g pid = Except.ok { g with proposals := mapSet g.proposals pid { p with status := ProposalStatus.passed } } := by
      simp only [finalize_proposal, hp, if_pos hc]
    exact ⟨_, { p with status := ProposalStatus.passed }, hfin,
      mapGet_mapSet_same _ _ _, by simp [hc], by simp [hc],
      fun hlt => absurd hc.1 (by omega)⟩
  · have hfin : finalize_proposal g pid = Except.ok { g with proposals := mapSet g.proposals pid { p with status := ProposalStatus.failed } } := by
      simp only [finalize_proposal, hp, if_neg hc]
    exact ⟨_, { p with status := ProposalStatus.failed }, hfin,
      mapGet_mapSet_same _ _ _, by simp [hc], by simp [hc], fun _ => rfl⟩

/-- Concrete governance state for exercising finalize: one active
proposal with one approving vote and AI score 60, threshold 1. -/
def govForFinalize : GovernanceData :=
  { admin := 0
    proposals :=
      [(1, { title := "peg"
             description := [1, 2, 3, 4, 5, 6]
             votes_for := 1
             votes_against := 0
             status := ProposalStatus.active
             ai_score := 60 })]
    voters := []
    ai_model_hash := 0
    quantum_threshold := 1 }

/-- C2 witness: the characterization applied to a concrete state. -/
theorem finalize_proposal_pass_fail_witness :
    ∃ g2 p2, finalize_proposal govForFinalize 1 = Except.ok g2 ∧
      mapGet g2.proposals 1 = some p2 ∧
      (p2.status = ProposalStatus.passed ↔
        (govForFinalize.quantum_threshold ≤ (1 : Nat) ∧ (50 : Int) < 60)) ∧
      (p2.status = ProposalStatus.failed ↔
        ¬ (govForFinalize.quantum_threshold ≤ (1 : Nat) ∧ (50 : Int) < 60)) ∧
      ((1 : Nat) < govForFinalize.quantum_threshold →
        p2.status = ProposalStatus.failed) :=
  finalize_proposal_pass_fail_characterization govForFinalize 1
    { title := "peg"
      description := [1, 2, 3, 4, 5, 6]
      votes_for := 1
      votes_against := 0
      status := ProposalStatus.active
      ai_score := 60 }
    (by rfl)

/-- C1 (amended): finalize_proposal performs no status gate. When a
first finalize succeeds, a second finalize of the same proposal returns
Ok again (the error enum has no AlreadyFinalized variant), and since the
tally and score did not change between the two calls the recomputed
status equals the one the first call stored. -/
theorem finalize_proposal_twice_ok_same_status (g g1 : GovernanceData)
    (pid : Nat) (h : finalize_proposal g pid = Except.ok g1) :
    ∃ g2 p1 p2, finalize_proposal g1 pid = Except.ok g2 ∧
      mapGet g1.proposals pid = some p1 ∧
      (p1.status = ProposalStatus.passed ∨ p1.status = ProposalStatus.failed) ∧
      mapGet g2.proposals pid = some p2 ∧
      p2.status = p1.status := by
  cases hp : mapGet g.proposals pid with
  | none => simp [finalize_proposal, hp] at h
  | some p =>
      simp only [finalize_proposal, hp] at h
      by_cases hc : g.quantum_threshold ≤ p.votes_for ∧ 50 < p.ai_score
      · rw [if_pos hc] at h
        have hg1 := Except.ok.inj h
        have hget : mapGet g1.proposals pid = some { p with status := ProposalStatus.passed } := by
          rw [← hg1]
          exact mapGet_mapSet_same _ _ _
        have hq : g1.quantum_threshold = g.quantum_threshold := by
          rw [← hg1]
        have hfin2 : finalize_proposal g1 pid = Except.ok { g1 with proposals := mapSet g1.proposals pid { p with status := ProposalStatus.passed } } := by
          simp only [finalize_proposal, hget, hq, if_pos hc]
        exact ⟨_, { p with status := ProposalStatus.passed },
          { p with status := ProposalStatus.passed }, hfin2, hget, Or.inl rfl,
          mapGet_mapSet_same _ _ _, rfl⟩
      · rw [if_neg hc] at h
        have hg1 := Except.ok.inj h
        have hget : mapGet g1.proposals pid = some { p with status := ProposalStatus.failed } := by
          rw [← hg1]
          exact mapGet_mapSet_same _ _ _
        have hq : g1.quantum_threshold = g.quantum_threshold := by
          rw [← hg1]
        have hfin2 : finalize_proposal g1 pid = Except.ok { g1 with proposals := mapSet g1.proposals pid { p with status := ProposalStatus.failed } } := by
          simp only [finalize_proposal, hget, hq, if_neg hc]
        exact ⟨_, { p with status := ProposalStatus.failed },
          { p with status := ProposalStatus.failed }, hfin2, hget, Or.inr rfl,
          mapGet_mapSet_same _ _ _, rfl⟩

/-- Concrete governance state for the double-finalize counterexample. -/
def govForRefinalize : GovernanceData :=
  { admin := 0
    proposals :=
      [(1, { title := "peg"
             description := []
             votes_for := 2
             votes_against := 0
             status := ProposalStatus.active
             ai_score := 70 })]
    voters := []
    ai_model_hash := 0
    quantum_threshold := 1 }

/-- C1 counterexample: finalizing the same proposal twice does NOT
return an error on the second call — both calls return Ok, refuting the
claimed AlreadyFinalized error (which does not even exist in
GovernanceError). -/
theorem finalize_proposal_second_call_not_error :
    ((finalize_proposal govForRefinalize 1).toOption.bind
      (fun g1 => (finalize_proposal g1 1).toOption)).isSome = true := by
  decide

/-- State reached by the first finalize of govForRefinalize. -/
def govForRefinalize2 : GovernanceData :=
  { govForRefinalize with
      proposals := mapSet govForRefinalize.proposals 1
        { title := "peg"
          description := []
          votes_for := 2
          votes_against := 0
          status := ProposalStatus.passed
          ai_score := 70 } }

/-- C1 witness: the amended statement applied to a concrete state whose
first finalize succeeds. -/
theorem finalize_proposal_twice_ok_witness :
    ∃ g2 p1 p2,
      finalize_proposal govForRefinalize2 1 = Except.ok g2 ∧
      mapGet govForRefinalize2.proposals 1 = some p1 ∧
      (p1.status = ProposalStatus.passed ∨ p1.status = ProposalStatus.failed) ∧
      mapGet g2.proposals 1 = some p2 ∧
      p2.status = p1.status :=
  finalize_proposal_twice_ok_same_status govForRefinalize govForRefinalize2 1 (by rfl)

/-- C5 (amended): the full behaviour of vote. It succeeds exactly when
the voter's recorded stake (zero for unknown voters) is at least
100,000 and the proposal exists — the proposal's status is NOT
checked; on success exactly one tally is incremented by one, the rest
of the proposal is untouched, and the proposal id is appended to the
voter's history; the only errors are InsufficientStake and
ProposalNotFound. -/
theorem vote_characterization (g : GovernanceData) (voter pid : Nat)
    (approve : Bool) :
    ((∃ g2, vote g voter pid approve = Except.ok g2) ↔
      (100000 ≤ ((mapGet g.voters voter).getD emptyVoter).stake ∧
        (mapGet g.proposals pid).isSome)) ∧
    (∀ e, vote g voter pid approve = Except.error e →
      e = GovernanceError.InsufficientStake ∨ e = GovernanceError.ProposalNotFound) ∧
    (∀ g2 p, vote g voter pid approve = Except.ok g2 →
      mapGet g.proposals pid = some p →
      (∃ p2, mapGet g2.proposals pid = some p2 ∧
        (approve = true →
          p2.votes_for = p.votes_for + 1 ∧ p2.votes_against = p.votes_against) ∧
        (approve = false →
          p2.votes_against = p.votes_against + 1 ∧ p2.votes_for = p.votes_for) ∧
        p2.status = p.status ∧ p2.ai_score = p.ai_score) ∧
      (∃ v2, mapGet g2.voters voter = some v2 ∧
        v2.vote_history =
          ((mapGet g.voters voter).getD emptyVoter).vote_history ++ [pid] ∧
        v2.stake = ((mapGet g.voters voter).getD emptyVoter).stake)) := by
  by_cases hstake : ((mapGet g.voters voter).getD emptyVoter).stake < 100000
  · have hv : vote g voter pid approve = Except.error GovernanceError.InsufficientStake := by
      simp only [vote, if_pos hstake]
    refine ⟨?_, ?_, ?_⟩
    · rw [hv]
      constructor
      · rintro ⟨g2, hg2⟩
        cases hg2
      · rintro ⟨hs, -⟩
        omega
    · intro e he
      rw [hv] at he
      exact Or.inl (Except.error.inj he).symm
    · intro g2 p hok
      rw [hv] at hok
      cases hok
  · cases hp : mapGet g.proposals pid with
    | none =>
        have hv : vote g voter pid approve = Except.error GovernanceError.ProposalNotFound := by
          simp only [vote, if_neg hstake, hp]
        refine ⟨?_, ?_, ?_⟩
        · rw [hv]
          constructor
          · rintro ⟨g2, hg2⟩
            cases hg2
          · rintro ⟨-, hsome⟩
            simp at hsome
        · intro e he
          rw [hv] at he
          exact Or.inr (Except.error.inj he).symm
        · intro g2 p hok
          rw [hv] at hok
          cases hok
    | some p =>
        cases approve with
        | true =>
            have hv : vote g voter pid true = Except.ok
                { g with
                    voters := mapSet g.voters voter
                      { (mapGet g.voters voter).getD emptyVoter with
                          vote_history :=
                            ((mapGet g.voters voter).getD emptyVoter).vote_history ++ [pid] }
                    proposals := mapSet g.proposals pid
                      { p with votes_for := p.votes_for + 1 } } := by
              simp only [vote, if_neg hstake, hp]
              rfl
            refine ⟨?_, ?_, ?_⟩
            · rw [hv]
              exact ⟨fun _ => ⟨by omega, rfl⟩, fun _ => ⟨_, rfl⟩⟩
            · intro e he
              rw [hv] at he
              cases he
            · intro g2 p0 hok hp0
              have hpp : p0 = p := (Option.some.inj hp0).symm
              subst hpp
              rw [hv] at hok
              have hg2 := (Except.ok.inj hok).symm
              subst hg2
              refine ⟨⟨{ p0 with votes_for := p0.votes_for + 1 },
                mapGet_mapSet_same _ _ _, ?_, ?_, rfl, rfl⟩,
                ⟨_, mapGet_mapSet_same _ _ _, rfl, rfl⟩⟩
              · intro _
                exact ⟨rfl, rfl⟩
              · intro hfalse
                cases hfalse
        | false =>
            have hv : vote g voter pid false = Except.ok
                { g with
                    voters := mapSet g.voters voter
                      { (mapGet g.voters voter).getD emptyVoter with
                          vote_history :=
                            ((mapGet g.voters voter).getD emptyVoter).vote_history ++ [pid] }
                    proposals := mapSet g.proposals pid
                      { p with votes_against := p.votes_against + 1 } } := by
              simp only [vote, if_neg hstake, hp]
              rfl
            refine ⟨?_, ?_, ?_⟩
            · rw [hv]
              exact ⟨fun _ => ⟨by omega, rfl⟩, fun _ => ⟨_, rfl⟩⟩
            · intro e he
              rw [hv] at he
              cases he
            · intro g2 p0 hok hp0
              have hpp : p0 = p := (Option.some.inj hp0).symm
              subst hpp
              rw [hv] at hok
              have hg2 := (Except.ok.inj hok).symm
              subst hg2
              refine ⟨⟨{ p0 with votes_against := p0.votes_against + 1 },
                mapGet_mapSet_same _ _ _, ?_, ?_, rfl, rfl⟩,
                ⟨_, mapGet_mapSet_same _ _ _, rfl, rfl⟩⟩
              · intro htrue
                cases htrue
              · intro _
                exact ⟨rfl, rfl⟩

/-- Concrete governance state with a proposal already in the terminal
Passed status and a voter holding exactly the minimum stake. -/
def govTerminalProposal : GovernanceData :=
  { admin := 0
    proposals :=
      [(1, { title := "done"
             description := []
             votes_for := 3
             votes_against := 0
             status := ProposalStatus.passed
             ai_score := 60 })]
    voters := [(7, { stake := 100000, vote_history := [] })]
    ai_model_hash := 0
    quantum_threshold := 1 }

/-- C5 counterexample: vote succeeds on a proposal whose status is
Passed, refuting the claim that vote succeeds only when the proposal is
Active. -/
theorem vote_succeeds_on_terminal_proposal :
    (vote govTerminalProposal 7 1 true).toOption.isSome = true := by
  decide

/-- Concrete governance state with an Active proposal, for exercising
the vote characterization. -/
def govActiveProposal : GovernanceData :=
  { admin := 0
    proposals :=
      [(1, { title := "live"
             description := []
             votes_for := 0
             votes_against := 0
             status := ProposalStatus.active
             ai_score := 40 })]
    voters := [(7, { stake := 250000, vote_history := [5] })]
    ai_model_hash := 0
    quantum_threshold := 2 }

/-- C5 witness: the characterization applied to a concrete voter and
proposal, with its success condition discharged concretely. -/
theorem vote_characterization_witness :
    (∃ g2, vote govActiveProposal 7 1 true = Except.ok g2) ∧
    ∀ g2, vote govActiveProposal 7 1 true = Except.ok g2 →
      (∃ p2, mapGet g2.proposals 1 = some p2 ∧ p2.votes_for = 1) ∧
      (∃ v2, mapGet g2.voters 7 = some v2 ∧ v2.vote_history = [5, 1]) := by
  have h := vote_characterization govActiveProposal 7 1 true
  constructor
  · exact h.1.mpr ⟨by decide, by decide⟩
  · intro g2 hok
    obtain ⟨⟨p2, hp2, hfor, -, -, -⟩, ⟨v2, hv2, hhist, -⟩⟩ :=
      h.2.2 g2
        { title := "live"
          description := []
          votes_for := 0
          votes_against := 0
          status := ProposalStatus.active
          ai_score := 40 } hok (by rfl)
    exact ⟨⟨p2, hp2, (hfor rfl).1⟩, ⟨v2, hv2, hhist⟩⟩

/-- C9: the stake gate in vote runs before the proposal lookup, so an
under-staked voter (unknown voters count as stake zero) always gets
InsufficientStake, even when the proposal id does not exist — never
ProposalNotFound. -/
theorem vote_stake_gate_precedes_lookup (g : GovernanceData)
    (voter pid : Nat) (approve : Bool)
    (h : ((mapGet g.voters voter).getD emptyVoter).stake < 100000) :
    vote g voter pid approve = Except.error GovernanceError.InsufficientStake := by
  simp only [vote, if_pos h]

/-- Governance state with no voter records and no proposals at all. -/
def govBare : GovernanceData :=
  { admin := 0
    proposals := []
    voters := []
    ai_model_hash := 0
    quantum_threshold := 1 }

/-- C9 witness: a voter with no record voting on a proposal id that
does not exist still gets InsufficientStake. -/
theorem vote_stake_gate_witness :
    mapGet govBare.proposals 99 = none ∧
    vote govBare 3 99 true = Except.error GovernanceError.InsufficientStake :=
  ⟨by decide, vote_stake_gate_precedes_lookup govBare 3 99 true (by decide)⟩

/-- C10: stake_tokens validates nothing — for every i128 amount,
including zero and negative values, it returns Ok and sets the
staker's stake to the old stake plus the amount, so a negative amount
strictly decreases the stake. -/
theorem stake_tokens_no_validation (g : GovernanceData) (staker : Nat)
    (amount : Int) :
    ∃ g2, stake_tokens g staker amount = Except.ok g2 ∧
      ∃ v2, mapGet g2.voters staker = some v2 ∧
        v2.stake = ((mapGet g.voters staker).getD emptyVoter).stake + amount ∧
        v2.vote_history = ((mapGet g.voters staker).getD emptyVoter).vote_history ∧
        (amount < 0 →
          v2.stake < ((mapGet g.voters staker).getD emptyVoter).stake) := by
  refine ⟨_, rfl, _, mapGet_mapSet_same _ _ _, rfl, rfl, ?_⟩
  intro hneg
  show ((mapGet g.voters staker).getD emptyVoter).stake + amount <
    ((mapGet g.voters staker).getD emptyVoter).stake
  omega

/-- C10 witness: staking -5 from an account with no record succeeds and
leaves the recorded stake at -5, strictly below zero. -/
theorem stake_tokens_negative_witness :
    ∃ g2, stake_tokens govBare 1 (-5) = Except.ok g2 ∧
      ∃ v2, mapGet g2.voters 1 = some v2 ∧ v2.stake < 0 := by
  obtain ⟨g2, hok, v2, hv2, hstake, -, hneg⟩ :=
    stake_tokens_no_validation govBare 1 (-5)
  have hlt := hneg (by decide)
  refine ⟨g2, hok, v2, hv2, ?_⟩
  rw [hstake]
  decide

/-- C6: the scoring function used by create_proposal is a pure function
of the description whose value always lies in [0, 99], and
create_proposal stores exactly that score on the new proposal. -/
theorem ai_score_proposal_bounded (g : GovernanceData) (title : String)
    (description : List Nat) :
    0 ≤ ai_score_proposal description ∧ ai_score_proposal description ≤ 99 ∧
    ∃ p, mapGet (create_proposal g title description).2.proposals
        (create_proposal g title description).1 = some p ∧
      p.ai_score = ai_score_proposal description := by
  refine ⟨?_, ?_, ?_⟩
  · exact Int.emod_nonneg _ (by norm_num)
  · have h := Int.emod_lt_of_pos ((description.length : Int) * 10)
      (show (0 : Int) < 100 by norm_num)
    unfold ai_score_proposal
    omega
  · exact ⟨_, mapGet_mapSet_same _ _ _, rfl⟩

/-- C7: calculate_pi_peg rejects the Invalid source, and for every
valid source it is a pure function of base_value alone — it reads no
time and no storage, so any two calls with the same base_value (in
particular at the same logical time with unchanged state) return the
same value, independent of which valid source is supplied. -/
theorem calculate_pi_peg_deterministic (base_value : Int)
    (s1 s2 : PiCoinSource)
    (h1 : s1 ≠ PiCoinSource.Invalid) (h2 : s2 ≠ PiCoinSource.Invalid) :
    calculate_pi_peg base_value PiCoinSource.Invalid = Except.error () ∧
    calculate_pi_peg base_value s1 = Except.ok (base_value + 3141590) ∧
    calculate_pi_peg base_value s1 = calculate_pi_peg base_value s2 := by
  refine ⟨by simp [calculate_pi_peg], ?_, ?_⟩
  · simp only [calculate_pi_peg, if_neg h1]
    norm_num
  · simp only [calculate_pi_peg, if_neg h1, if_neg h2]

/-- C7 witness: the peg computation at the reference base value,
compared across two distinct valid sources. -/
theorem calculate_pi_peg_witness :
    calculate_pi_peg 314159000000 PiCoinSource.Invalid = Except.error () ∧
    calculate_pi_peg 314159000000 PiCoinSource.Mining =
      Except.ok (314159000000 + 3141590) ∧
    calculate_pi_peg 314159000000 PiCoinSource.Mining =
      calculate_pi_peg 314159000000 PiCoinSource.P2P :=
  calculate_pi_peg_deterministic 314159000000 PiCoinSource.Mining
    PiCoinSource.P2P (by decide) (by decide)

/-- C8: batch_verify_sources fails exactly when the two inputs have
different lengths; otherwise it returns one Bool per holder, the i-th
true iff the i-th proposed source is not Invalid. (The embedding is a
pure function of its arguments, so no state is read or mutated.) -/
theorem batch_verify_sources_characterization (holders : List Nat)
    (sources : List PiCoinSource) :
    (batch_verify_sources holders sources = Except.error () ↔
      holders.length ≠ sources.length) ∧
    (∀ res, batch_verify_sources holders sources = Except.ok res →
      res.length = holders.length ∧
      ∀ i, i < res.length →
        (res.getD i false = true ↔
          sources.getD i PiCoinSource.Invalid ≠ PiCoinSource.Invalid)) := by
  by_cases hlen : holders.length ≠ sources.length
  · refine ⟨⟨fun _ => hlen, fun _ => ?_⟩, ?_⟩
    · simp only [batch_verify_sources, if_pos hlen]
    · intro res hres
      simp only [batch_verify_sources, if_pos hlen] at hres
      cases hres
  · have hok : batch_verify_sources holders sources =
        Except.ok ((List.range holders.length).map
          (fun i => decide (sources.getD i PiCoinSource.Invalid ≠ PiCoinSource.Invalid))) := by
      simp only [batch_verify_sources, if_neg hlen]
    refine ⟨⟨fun herr => ?_, fun h => absurd h hlen⟩, ?_⟩
    · rw [hok] at herr
      cases herr
    · intro res hres
      rw [hok] at hres
      have hres2 := (Except.ok.inj hres).symm
      subst hres2
      constructor
      · simp
      · intro i hi
        simp only [List.length_map, List.length_range] at hi
        have hget : ((List.range holders.length).map
            (fun i => decide (sources.getD i PiCoinSource.Invalid ≠ PiCoinSource.Invalid))).getD i false =
            decide (sources.getD i PiCoinSource.Invalid ≠ PiCoinSource.Invalid) := by
          rw [List.getD_eq_getElem?_getD]
          simp [hi]
        rw [hget]
        simp

/-- C8 witness: a mixed batch of two holders, one valid and one Invalid
proposed source. -/
theorem batch_verify_sources_witness :
    (batch_verify_sources [10, 20] [PiCoinSource.Mining, PiCoinSource.Invalid] =
      Except.error () ↔ ([10, 20] : List Nat).length ≠
        ([PiCoinSource.Mining, PiCoinSource.Invalid] : List PiCoinSource).length) ∧
    ∀ res, batch_verify_sources [10, 20]
        [PiCoinSource.Mining, PiCoinSource.Invalid] = Except.ok res →
      res.length = 2 ∧
      (res.getD 0 false = true ↔
        ([PiCoinSource.Mining, PiCoinSource.Invalid].getD 0 PiCoinSource.Invalid ≠
          PiCoinSource.Invalid)) ∧
      (res.getD 1 false = true ↔
        ([PiCoinSource.Mining, PiCoinSource.Invalid].getD 1 PiCoinSource.Invalid ≠
          PiCoinSource.Invalid)) := by
  have h := batch_verify_sources_characterization [10, 20]
    [PiCoinSource.Mining, PiCoinSource.Invalid]
  refine ⟨h.1, ?_⟩
  intro res hres
  obtain ⟨hlen, hidx⟩ := h.2 res hres
  exact ⟨hlen, hidx 0 (by rw [hlen]; norm_num), hidx 1 (by rw [hlen]; norm_num)⟩

/-- C3: starting from a freshly initialized ledger with non-negative
locked collateral, after every sequence of mint/transfer commands (the
empty sequence covers the state immediately after initialization, and
every prefix of a longer sequence is itself a sequence) the recorded
balances sum to the total supply and the total supply does not exceed
the locked collateral. -/
theorem ledger_conservation (collateral : Int) (h : 0 ≤ collateral)
    (ops : List LedgerOp) :
    sumBal (runOps (initLedger collateral) ops).balances =
      (runOps (initLedger collateral) ops).total_supply ∧
    (runOps (initLedger collateral) ops).total_supply ≤
      (runOps (initLedger collateral) ops).collateral_locked := by
  have hinv := ledgerInv_runOps (initLedger collateral) ops
    (ledgerInv_initLedger collateral h)
  exact ⟨hinv.2.1, hinv.2.2⟩

/-- C3 witness: the spec's scenario — collateral 100 billion, a mint of
one million from Mining followed by a transfer of half to a second
account (and one failing over-collateral mint in between). -/
theorem ledger_conservation_witness :
    (0 : Int) ≤ 100000000000 ∧
    (sumBal (runOps (initLedger 100000000000)
        [LedgerOp.mint 1 1000000 PiCoinSource.Mining,
         LedgerOp.mint 2 200000000000 PiCoinSource.Rewards,
         LedgerOp.transfer 1 2 500000]).balances =
      (runOps (initLedger 100000000000)
        [LedgerOp.mint 1 1000000 PiCoinSource.Mining,
         LedgerOp.mint 2 200000000000 PiCoinSource.Rewards,
         LedgerOp.transfer 1 2 500000]).total_supply ∧
    (runOps (initLedger 100000000000)
        [LedgerOp.mint 1 1000000 PiCoinSource.Mining,
         LedgerOp.mint 2 200000000000 PiCoinSource.Rewards,
         LedgerOp.transfer 1 2 500000]).total_supply ≤
      (runOps (initLedger 100000000000)
        [LedgerOp.mint 1 1000000 PiCoinSource.Mining,
         LedgerOp.mint 2 200000000000 PiCoinSource.Rewards,
         LedgerOp.transfer 1 2 500000]).collateral_locked) :=
  ⟨by norm_num,
   ledger_conservation 100000000000 (by norm_num)
     [LedgerOp.mint 1 1000000 PiCoinSource.Mining,
      LedgerOp.mint 2 200000000000 PiCoinSource.Rewards,
      LedgerOp.transfer 1 2 500000]⟩

/-- C4: minting from the Invalid source always fails with InvalidSource
and leaves the whole state unchanged, and transferring from an account
with no provenance record always fails with InvalidSource. -/
theorem mint_invalid_source_transfer_no_provenance (st : LedgerState)
    (rcpt src dst : Nat) (amount amount2 : Int)
    (hnoprov : mapGet st.provenance src = none) :
    mint st rcpt amount PiCoinSource.Invalid =
      Except.error LedgerError.InvalidSource ∧
    applyOp st (LedgerOp.mint rcpt amount PiCoinSource.Invalid) = st ∧
    transfer st src dst amount2 = Except.error LedgerError.InvalidSource := by
  refine ⟨?_, ?_, ?_⟩
  · simp [mint]
  · simp [applyOp, mint]
  · simp only [transfer, hnoprov]

/-- C4 witness: on a freshly initialized ledger, an Invalid-source mint
errors and changes nothing, and a transfer from an account that was
never minted to errors with InvalidSource. -/
theorem mint_invalid_source_witness :
    mapGet (initLedger 100000000000).provenance 3 = none ∧
    (mint (initLedger 100000000000) 1 1000000 PiCoinSource.Invalid =
      Except.error LedgerError.InvalidSource ∧
    applyOp (initLedger 100000000000)
      (LedgerOp.mint 1 1000000 PiCoinSource.Invalid) = initLedger 100000000000 ∧
    transfer (initLedger 100000000000) 3 4 500000 =
      Except.error LedgerError.InvalidSource) :=
  ⟨by rfl,
   mint_invalid_source_transfer_no_provenance (initLedger 100000000000)
     1 3 4 1000000 500000 (by rfl)⟩
